import Mathlib

/-!
Shallow embedding of `juce_MidiKeyboardComponent.cpp` (JUCE `MidiKeyboardComponent`).

Floating-point values from the source are modelled as exact rationals (`ℚ`),
C `int` as `Int`/`Nat` (all note numbers handled by the component are
non-negative).  Member state is gathered in the structure `KState`; each C++
member function becomes a Lean function from `KState` (plus arguments) to a new
`KState` together with the externally visible effects it produced: emitted MIDI
events (`state.noteOn` / `state.noteOff` calls) and UI requests
(`sendChangeMessage` / `repaint` / a call of `resized`, the relayout routine).
-/

/- Batteries marks the rational arithmetic operations `@[irreducible]`, which
blocks `decide`-style evaluation of the embedding; restore the kernel's view
(the kernel ignores reducibility, so this changes nothing about soundness). -/
set_option allowUnsafeReducibility true in
attribute [semireducible] Rat.add Rat.mul Rat.sub Rat.inv Rat.div

namespace MidiKeyboard

/-- Orientation enum of the component (juce_MidiKeyboardComponent.h). -/
inductive Orientation where
  | horizontalKeyboard
  | verticalKeyboardFacingLeft
  | verticalKeyboardFacingRight
deriving DecidableEq, Repr

export Orientation (horizontalKeyboard verticalKeyboardFacingLeft verticalKeyboardFacingRight)

/-- Identity of a pointer source: `MouseInputSource::getType()` and `getIndex()`
(the component only ever compares these for equality, lines 695-698). -/
structure SourceId where
  srcType : Nat
  srcIndex : Nat
deriving DecidableEq, Repr

/-- `MidiKeyboardComponent::InputIndex`: one hover or press entry, the source
identity plus the note it refers to. -/
structure InputIndex where
  source : SourceId
  noteNumber : Int
deriving DecidableEq, Repr

/-- One entry of the parallel arrays `keyPresses` / `keyPressNotes` (the source
mutates both arrays at equal indices, so they form a list of pairs).  The
logical key (`juce::KeyPress`) is abstracted to a `Nat` identifier, compared
for equality only. -/
structure KeyBinding where
  key : Nat
  noteOffset : Nat
deriving DecidableEq, Repr

/-- Modelled from the spec: `juce::Range<float>` (juce_core, not under src/).
Per spec section 4.1 a key pixel span is the half-open interval `[start, end)`;
`contains` tests membership in that half-open interval. -/
structure QRange where
  start : ℚ
  stop : ℚ
deriving DecidableEq, Repr

/-- Modelled from the spec: `Range::contains` for the half-open span
`[start, end)` of section 4.1. -/
def QRange.containsPos (r : QRange) (v : ℚ) : Bool :=
  decide (r.start ≤ v) && decide (v < r.stop)

/-- A `noteOn`/`noteOff` call made on the shared `MidiKeyboardState`. -/
structure MidiEvent where
  isOn : Bool
  channel : Nat
  note : Int
  velocity : ℚ
deriving DecidableEq, Repr

/-- A UI request made by the component: a change-broadcast
(`sendChangeMessage`), a full or per-key repaint, or a call of the relayout
routine `resized()`. -/
inductive UISignal where
  | sendChange
  | repaintAll
  | repaintKey (note : Int)
  | resizedCall
deriving DecidableEq, Repr

/-- The member state of `MidiKeyboardComponent` relevant to the verified
functions.  `width`/`height` are the component bounds (`getWidth`/`getHeight`);
`keysPressed` is the physical-press bitset (a `juce::BigInteger`, modelled as
the set of set bit indices); `scrollDownVisible`/`scrollUpVisible` mirror the
visibility of the two scroll buttons. -/
structure KState where
  orientation : Orientation
  rangeStart : Nat
  rangeEnd : Nat
  firstKey : ℚ
  keyWidth : ℚ
  xOffset : ℚ
  blackNoteWidthRatio : ℚ
  blackNoteLengthRatio : ℚ
  canScroll : Bool
  scrollDownVisible : Bool
  scrollUpVisible : Bool
  width : Int
  height : Int
  midiChannel : Nat
  midiInChannelMask : Nat
  velocity : ℚ
  useMousePositionForVelocity : Bool
  keysPressed : Finset Nat
  mouseOverNotes : List InputIndex
  mouseDownNotes : List InputIndex
  keyBindings : List KeyBinding
  keyMappingOctave : Nat
  octaveNumForMiddleC : Int
  shouldCheckState : Bool
deriving DecidableEq

/-- Modelled from the spec: `juce::jlimit (lower, upper, value)` (juce_core,
not under src/); the spec says out-of-range values are clamped to the nearest
valid value (section 7). -/
def jlimit {α : Type} [LinearOrder α] (lo hi v : α) : α :=
  if v < lo then lo else if hi < v then hi else v

/-- C cast of a non-negative real quantity to `int`: truncation toward zero.
All uses in the verified code apply it to values that are non-negative under
the stated hypotheses, where it agrees with the floor. -/
def cTruncToInt (q : ℚ) : Int :=
  if 0 ≤ q then q.floor else -((-q).floor)

/-- The `blackNotes` table (line 31). -/
def blackNotes : List Nat := [1, 3, 6, 8, 10]

/-- The `whiteNotes` table (line 30). -/
def whiteNotes : List Nat := [0, 2, 4, 5, 7, 9, 11]

/-- Modelled from the spec: `MidiMessage::isMidiNoteBlack` (juce_audio_basics,
not under src/): whether the pitch class of a note is one of the five black
keys, i.e. whether `n % 12` is in the `blackNotes` table. -/
def isMidiNoteBlack (n : Nat) : Bool :=
  blackNotes.contains (n % 12)

/-- The `notePos` offset table of `getKeyPosition` (lines 194-200), as a
function of the in-octave note index, parameterised by the black-note width
ratio.  (In the source the table is a function-local `static`, so it captures
the ratio current at the first call; the parameter here is that captured
value.) -/
def notePos (r : ℚ) : Nat → ℚ
  | 0 => 0
  | 1 => 1 - r * (6 / 10)
  | 2 => 1
  | 3 => 2 - r * (4 / 10)
  | 4 => 2
  | 5 => 3
  | 6 => 4 - r * (7 / 10)
  | 7 => 4
  | 8 => 5 - r * (5 / 10)
  | 9 => 5
  | 10 => 6 - r * (3 / 10)
  | _ => 6

/-- `MidiKeyboardComponent::getKeyPosition` (lines 190-209). -/
def getKeyPosition (blackNoteWidthRatio : ℚ) (midiNoteNumber : Nat) (targetKeyWidth : ℚ) : QRange :=
  let octave := midiNoteNumber / 12
  let note := midiNoteNumber % 12
  let start := (octave : ℚ) * 7 * targetKeyWidth + notePos blackNoteWidthRatio note * targetKeyWidth
  let width := if isMidiNoteBlack note then blackNoteWidthRatio * targetKeyWidth else targetKeyWidth
  ⟨start, start + width⟩

/-- `MidiKeyboardComponent::getKeyPos` (lines 211-216): the key position
shifted by the scroll offset and rebased to the range start. -/
def getKeyPos (st : KState) (midiNoteNumber : Nat) : QRange :=
  let p := getKeyPosition st.blackNoteWidthRatio midiNoteNumber st.keyWidth
  let base := (getKeyPosition st.blackNoteWidthRatio st.rangeStart st.keyWidth).start
  ⟨p.start - st.xOffset - base, p.stop - st.xOffset - base⟩

/-- `MidiKeyboardComponent::getBlackNoteLength` (lines 560-564). -/
def getBlackNoteLength (st : KState) : ℚ :=
  (if st.orientation = horizontalKeyboard then (st.height : ℚ) else (st.width : ℚ))
    * st.blackNoteLengthRatio

/-- The octave starts visited by the scan loops of `remappedXYToNote`
(lines 294 and 312): `12 * (rangeStart / 12)`, stepping by 12 while
`octaveStart <= rangeEnd`. -/
def octaveStarts (st : KState) : List Nat :=
  (List.range (st.rangeEnd / 12 - st.rangeStart / 12 + 1)).map
    (fun i => 12 * (st.rangeStart / 12) + 12 * i)

/-- Whether a candidate note is accepted by the scan of `remappedXYToNote`:
in range and its key span contains the x position (lines 300-302, 318-320). -/
def hitsKey (st : KState) (x : ℚ) (note : Nat) : Bool :=
  decide (st.rangeStart ≤ note) && decide (note ≤ st.rangeEnd)
    && (getKeyPos st note).containsPos (x - st.xOffset)

/-- `MidiKeyboardComponent::remappedXYToNote` (lines 288-332): black keys are
tested first (only when the y position is above the black-key length), then
white keys, in ascending octave then table order; the result is the hit note
(or -1) together with the mouse-position velocity fraction. -/
def remappedXYToNote (st : KState) (pos : ℚ × ℚ) : Int × ℚ :=
  let blackNoteLength := getBlackNoteLength st
  let blackHit :=
    if pos.2 < blackNoteLength then
      ((octaveStarts st).flatMap (fun o => blackNotes.map (o + ·))).find? (hitsKey st pos.1)
    else none
  match blackHit with
  | some note => ((note : Int), pos.2 / blackNoteLength)
  | none =>
    match ((octaveStarts st).flatMap (fun o => whiteNotes.map (o + ·))).find? (hitsKey st pos.1) with
    | some note =>
      let whiteNoteLength : ℚ :=
        if st.orientation = horizontalKeyboard then (st.height : ℚ) else (st.width : ℚ)
      ((note : Int), pos.2 / whiteNoteLength)
    | none => (-1, 0)

/-- `MidiKeyboardComponent::setKeyWidth` (lines 94-103): guarded assignment,
relayout only on change. -/
def setKeyWidth (st : KState) (widthInPixels : ℚ) : KState × List UISignal :=
  if st.keyWidth = widthInPixels then (st, [])
  else ({st with keyWidth := widthInPixels}, [UISignal.resizedCall])

/-- `MidiKeyboardComponent::setOrientation` (lines 105-112). -/
def setOrientation (st : KState) (newOrientation : Orientation) : KState × List UISignal :=
  if st.orientation = newOrientation then (st, [])
  else ({st with orientation := newOrientation}, [UISignal.resizedCall])

/-- `MidiKeyboardComponent::setAvailableRange` (lines 114-127): on change,
stores the bounds clamped to [0,127], clamps `firstKey` into the new range and
relays out. -/
def setAvailableRange (st : KState) (lowestNote highestNote : Int) : KState × List UISignal :=
  if (st.rangeStart : Int) ≠ lowestNote ∨ (st.rangeEnd : Int) ≠ highestNote then
    let rs := (jlimit 0 127 lowestNote).toNat
    let re := (jlimit 0 127 highestNote).toNat
    ({st with rangeStart := rs
              rangeEnd := re
              firstKey := jlimit (rs : ℚ) (re : ℚ) st.firstKey}, [UISignal.resizedCall])
  else (st, [])

/-- `MidiKeyboardComponent::setLowestVisibleKeyFloat` (lines 134-148): clamp,
then on change store, broadcast only when the truncated value moved, and
always relayout. -/
def setLowestVisibleKeyFloat (st : KState) (noteNumber : ℚ) : KState × List UISignal :=
  let n := jlimit (st.rangeStart : ℚ) (st.rangeEnd : ℚ) noteNumber
  if n ≠ st.firstKey then
    let hasMoved := cTruncToInt st.firstKey ≠ cTruncToInt n
    ({st with firstKey := n},
     (if hasMoved then [UISignal.sendChange] else []) ++ [UISignal.resizedCall])
  else (st, [])

/-- `MidiKeyboardComponent::setLowestVisibleKey` (lines 129-132). -/
def setLowestVisibleKey (st : KState) (noteNumber : Int) : KState × List UISignal :=
  setLowestVisibleKeyFloat st (noteNumber : ℚ)

/-- `MidiKeyboardComponent::setScrollButtonsVisible` (lines 150-157). -/
def setScrollButtonsVisible (st : KState) (newCanScroll : Bool) : KState × List UISignal :=
  if st.canScroll = newCanScroll then (st, [])
  else ({st with canScroll := newCanScroll}, [UISignal.resizedCall])

/-- `MidiKeyboardComponent::resetAnyKeysInUse` (lines 662-680): note-off on
the current channel for every set bit of the physical-press bitset (scanned
from bit 127 down to 0) and for every mouse-down entry, then clear the bitset
and both pointer sets. -/
def resetAnyKeysInUse (st : KState) : KState × List MidiEvent :=
  let bitsetEvents :=
    if st.keysPressed ≠ ∅ then
      ((List.range 128).reverse.filter (fun i => i ∈ st.keysPressed)).map
        (fun (i : Nat) => MidiEvent.mk false st.midiChannel (i : Int) 0)
    else []
  let downEvents := st.mouseDownNotes.map
    (fun m => MidiEvent.mk false st.midiChannel m.noteNumber 0)
  ({st with keysPressed := ∅, mouseDownNotes := [], mouseOverNotes := []},
   bitsetEvents ++ downEvents)

/-- `MidiKeyboardComponent::setMidiChannel` (lines 166-175): on change,
release everything on the old channel first, then store the new channel
clamped to [1,16]. -/
def setMidiChannel (st : KState) (midiChannelNumber : Int) : KState × List MidiEvent :=
  if (st.midiChannel : Int) ≠ midiChannelNumber then
    let p := resetAnyKeysInUse st
    ({p.1 with midiChannel := (jlimit 1 16 midiChannelNumber).toNat}, p.2)
  else (st, [])

/-- `MidiKeyboardComponent::setMidiChannelsToDisplay` (lines 177-181):
unguarded; always stores the mask and marks the note-state dirty flag. -/
def setMidiChannelsToDisplay (st : KState) (midiChannelMask : Nat) : KState :=
  {st with midiInChannelMask := midiChannelMask, shouldCheckState := true}

/-- `MidiKeyboardComponent::setVelocity` (lines 183-187): stores the scalar
clamped to [0,1] and the position-derived-velocity flag; unguarded but emits
nothing. -/
def setVelocity (st : KState) (v : ℚ) (useMousePosition : Bool) : KState :=
  {st with velocity := jlimit 0 1 v, useMousePositionForVelocity := useMousePosition}

/-- `MidiKeyboardComponent::setOctaveForMiddleC` (lines 508-512): unguarded
assignment followed by an unconditional full repaint. -/
def setOctaveForMiddleC (st : KState) (octaveNum : Int) : KState × List UISignal :=
  ({st with octaveNumForMiddleC := octaveNum}, [UISignal.repaintAll])

/-- `MidiKeyboardComponent::setBlackNoteLengthProportion` (lines 549-558):
guarded assignment; the [0,1] bound is only a debug assertion, the stored
value is not clamped. -/
def setBlackNoteLengthProportion (st : KState) (ratio : ℚ) : KState × List UISignal :=
  if st.blackNoteLengthRatio = ratio then (st, [])
  else ({st with blackNoteLengthRatio := ratio}, [UISignal.resizedCall])

/-- `MidiKeyboardComponent::setBlackNoteWidthProportion` (lines 566-575):
guarded assignment; the [0,1] bound is only a debug assertion, the stored
value is not clamped. -/
def setBlackNoteWidthProportion (st : KState) (ratio : ℚ) : KState × List UISignal :=
  if st.blackNoteWidthRatio = ratio then (st, [])
  else ({st with blackNoteWidthRatio := ratio}, [UISignal.resizedCall])

/-- `MidiKeyboardComponent::resized` (lines 577-648).  The scroll-button
bounds assignments are outside the model; their visibility flags and every
mutation of `firstKey` / `xOffset`, and every emitted signal, are kept in
source order. -/
def resized (st : KState) : KState × List UISignal :=
  if st.width ≤ 0 ∨ st.height ≤ 0 then (st, [])
  else
    let w : ℚ := if st.orientation ≠ horizontalKeyboard then (st.height : ℚ) else (st.width : ℚ)
    let kx2 := (getKeyPos st st.rangeEnd).stop
    let p1 :=
      if cTruncToInt st.firstKey ≠ (st.rangeStart : Int) then
        let kx1 := (getKeyPos st st.rangeStart).start
        if kx2 - kx1 ≤ w then
          ({st with firstKey := (st.rangeStart : ℚ)},
           [UISignal.sendChange, UISignal.repaintAll])
        else (st, ([] : List UISignal))
      else (st, ([] : List UISignal))
    let st1 := p1.1
    let st2 := {st1 with
      scrollDownVisible := st1.canScroll && decide ((st1.rangeStart : ℚ) < st1.firstKey)
      xOffset := 0}
    let p2 :=
      if st2.canScroll then
        let endOfLastKey := (getKeyPos st2 st2.rangeEnd).stop
        let spaceAvailable := w
        let lastStartKey := (remappedXYToNote st2 (endOfLastKey - spaceAvailable, 0)).1 + 1
        let pA :=
          if 0 ≤ lastStartKey ∧ lastStartKey < cTruncToInt st2.firstKey then
            ({st2 with firstKey :=
                ((jlimit (st2.rangeStart : Int) (st2.rangeEnd : Int) lastStartKey : Int) : ℚ)},
             [UISignal.sendChange])
          else (st2, ([] : List UISignal))
        ({pA.1 with xOffset := (getKeyPos pA.1 (cTruncToInt pA.1.firstKey).toNat).start}, pA.2)
      else ({st2 with firstKey := (st2.rangeStart : ℚ)}, ([] : List UISignal))
    let st3 := p2.1
    let st4 := {st3 with
      scrollUpVisible := st3.canScroll && decide (w < (getKeyPos st3 st3.rangeEnd).start)}
    (st4, p1.2 ++ p2.2 ++ [UISignal.repaintAll])

/-- The search `std::find_if` over a hover/press list for a given source
identity (lines 695-698): the first entry of that source, if any. -/
def findSource (s : SourceId) : List InputIndex → Option InputIndex
  | [] => none
  | x :: xs => if x.source = s then some x else findSource s xs

/-- `container.erase (iterator found by find_if)`: remove the first entry of
the given source (lines 712, 726, 743). -/
def eraseSource (s : SourceId) : List InputIndex → List InputIndex
  | [] => []
  | x :: xs => if x.source = s then xs else x :: eraseSource s xs

/-- `overIndex->noteNumber = newNote` (line 716): overwrite the note of the
first entry of the given source. -/
def setSourceNote (s : SourceId) (n : Int) : List InputIndex → List InputIndex
  | [] => []
  | x :: xs => if x.source = s then {x with noteNumber := n} :: xs
               else x :: setSourceNote s n xs

/-- `MidiKeyboardComponent::containsNoteNumber` (lines 687-691). -/
def containsNoteNumber (container : List InputIndex) (noteNumber : Int) : Bool :=
  container.any (fun x => decide (x.noteNumber = noteNumber))

/-- The old hover note of a source: the entry found by the `find_if` of
line 697, or -1 (line 702). -/
def oldNoteOf (l : List InputIndex) (source : SourceId) : Int :=
  match findSource source l with
  | none => -1
  | some x => x.noteNumber

/-- The hover update of `updateNoteUnderMouse` (lines 706-717): on a hover
change, repaint the old and the new note and erase/append/overwrite the hover
entry of the source. -/
def updateHover (st : KState) (newNote : Int) (source : SourceId) : KState × List UISignal :=
  let oldNote := oldNoteOf st.mouseOverNotes source
  if oldNote ≠ newNote then
    let sigs := [UISignal.repaintKey oldNote, UISignal.repaintKey newNote]
    if newNote = -1 then
      ({st with mouseOverNotes := eraseSource source st.mouseOverNotes}, sigs)
    else if oldNote = -1 then
      ({st with mouseOverNotes := st.mouseOverNotes ++ [⟨source, newNote⟩]}, sigs)
    else
      ({st with mouseOverNotes := setSourceNote source newNote st.mouseOverNotes}, sigs)
  else (st, ([] : List UISignal))

/-- The press/release part of `updateNoteUnderMouse` (lines 719-747), applied
after the hover update.  `oldNoteDown` is the note of the press entry found
for the source at function entry (lines 695-696, 703; the hover update leaves
the press list untouched, so the entry is unchanged). -/
def updatePress (st : KState) (newNote oldNoteDown : Int) (eventVelocity : ℚ)
    (isDown : Bool) (source : SourceId) : KState × List MidiEvent :=
  if isDown then
    if newNote = oldNoteDown then (st, [])
    else
      let rel :=
        if 0 ≤ oldNoteDown then
          let down2 := eraseSource source st.mouseDownNotes
          if containsNoteNumber down2 oldNoteDown then
            ({st with mouseDownNotes := down2}, ([] : List MidiEvent))
          else
            ({st with mouseDownNotes := down2},
             [MidiEvent.mk false st.midiChannel oldNoteDown eventVelocity])
        else (st, ([] : List MidiEvent))
      let str := rel.1
      if 0 ≤ newNote ∧ containsNoteNumber str.mouseDownNotes newNote = false then
        ({str with mouseDownNotes := str.mouseDownNotes ++ [⟨source, newNote⟩]},
         rel.2 ++ [MidiEvent.mk true str.midiChannel newNote eventVelocity])
      else (str, rel.2)
  else
    if oldNoteDown < 0 then (st, [])
    else
      let down2 := eraseSource source st.mouseDownNotes
      if containsNoteNumber down2 oldNoteDown then
        ({st with mouseDownNotes := down2}, [])
      else
        ({st with mouseDownNotes := down2},
         [MidiEvent.mk false st.midiChannel oldNoteDown eventVelocity])

/-- `MidiKeyboardComponent::updateNoteUnderMouse` (lines 693-747), taken after
the hit test: the source first computes `newNote = xyToNote (pos, ...)`
(lines 700-701) and from there on only uses `newNote` and the velocity
fraction, which are the parameters here.  Returns the new state, the emitted
MIDI events and the repaint requests. -/
def updateNoteUnderMouse (st : KState) (newNote : Int) (mousePositionVelocity : ℚ)
    (isDown : Bool) (source : SourceId) : KState × List MidiEvent × List UISignal :=
  let oldNoteDown := oldNoteOf st.mouseDownNotes source
  let eventVelocity : ℚ :=
    max 0 (if st.useMousePositionForVelocity then mousePositionVelocity * st.velocity else 1)
  let hover := updateHover st newNote source
  let press := updatePress hover.1 newNote oldNoteDown eventVelocity isDown source
  (press.1, press.2, hover.2)

/-- `MidiKeyboardComponent::removeKeyPressForNote` (lines 855-865): remove
every binding whose note offset matches (the source removes the matching
indices from both parallel arrays). -/
def removeKeyPressForNote (st : KState) (midiNoteOffsetFromC : Nat) : KState :=
  {st with keyBindings := st.keyBindings.filter (fun b => b.noteOffset ≠ midiNoteOffsetFromC)}

/-- `MidiKeyboardComponent::setKeyPressForNote` (lines 847-853): remove every
binding with the same offset, then append the new pair. -/
def setKeyPressForNote (st : KState) (key : Nat) (midiNoteOffsetFromC : Nat) : KState :=
  let st2 := removeKeyPressForNote st midiNoteOffsetFromC
  {st2 with keyBindings := st2.keyBindings ++ [⟨key, midiNoteOffsetFromC⟩]}

/-- A call of either key-mapping mutator. -/
inductive KeyMapOp where
  | bind (key : Nat) (offset : Nat)
  | unbind (offset : Nat)

/-- A sequence of `setKeyPressForNote` / `removeKeyPressForNote` calls. -/
def applyKeyMapOps (st : KState) : List KeyMapOp → KState
  | [] => st
  | KeyMapOp.bind k o :: ops => applyKeyMapOps (setKeyPressForNote st k o) ops
  | KeyMapOp.unbind o :: ops => applyKeyMapOps (removeKeyPressForNote st o) ops

/-- `MidiKeyboardComponent::keyStateChanged` (lines 874-903): scan the
bindings from the last index down to 0; for a currently-down key whose note is
not yet in the physical-press bitset emit note-on and set the bit, for a
released key whose note is pressed emit note-off and clear the bit.
`down` abstracts `KeyPress::isCurrentlyDown`.  `keyStateStep` is the body of
one loop iteration (lines 880-899). -/
def keyStateStep (st : KState) (down : Nat → Bool)
    (acc : Finset Nat × List MidiEvent) (b : KeyBinding) : Finset Nat × List MidiEvent :=
  let note := 12 * st.keyMappingOctave + b.noteOffset
  if down b.key then
    if note ∈ acc.1 then acc
    else (insert note acc.1, acc.2 ++ [MidiEvent.mk true st.midiChannel (note : Int) st.velocity])
  else
    if note ∈ acc.1 then
      (acc.1.erase note, acc.2 ++ [MidiEvent.mk false st.midiChannel (note : Int) 0])
    else acc

/-- The loop of `keyStateChanged` over all bindings, from the last index down
to index 0 (lines 878-900). -/
def keyStateChanged (st : KState) (down : Nat → Bool) : KState × List MidiEvent :=
  let r := st.keyBindings.reverse.foldl (keyStateStep st down) (st.keysPressed, [])
  ({st with keysPressed := r.1}, r.2)

/-- The center of a key's pixel span (the point hit-tested in the round-trip
property). -/
def spanCenter (r : QRange) : ℚ := (r.start + r.stop) / 2

/-- The width of a pixel span. -/
def spanWidth (r : QRange) : ℚ := r.stop - r.start

/-- Whether an event list contains a note-off for the given note. -/
def containsNoteOff (evs : List MidiEvent) (n : Int) : Bool :=
  evs.any (fun e => !e.isOn && decide (e.note = n))

/-- Whether an event list contains a note-on for the given note. -/
def containsNoteOn (evs : List MidiEvent) (n : Int) : Bool :=
  evs.any (fun e => e.isOn && decide (e.note = n))

/-- The number of entries of a hover/press list holding the given note. -/
def countNote (l : List InputIndex) (n : Int) : Nat :=
  (l.filter (fun x => decide (x.noteNumber = n))).length

/-- Whether the list has an entry of the given source holding the given
note. -/
def hasSourceNote (l : List InputIndex) (s : SourceId) (n : Int) : Bool :=
  l.any (fun x => decide (x.source = s) && decide (x.noteNumber = n))

/-- Whether the list has an entry holding the given note from a source other
than the given one. -/
def hasOtherSourceNote (l : List InputIndex) (s : SourceId) (n : Int) : Bool :=
  l.any (fun x => decide (x.source ≠ s) && decide (x.noteNumber = n))

/-- Each pointer-source identity occurs at most once in the list. -/
def sourcesUnique (l : List InputIndex) : Prop :=
  (l.map InputIndex.source).Nodup

instance (l : List InputIndex) : Decidable (sourcesUnique l) := by
  unfold sourcesUnique; infer_instance

/-- The number of bindings for a given note offset. -/
def countOffset (l : List KeyBinding) (o : Nat) : Nat :=
  (l.filter (fun b => decide (b.noteOffset = o))).length

/-- Every note offset is bound at most once. -/
def offsetsUnique (l : List KeyBinding) : Prop :=
  ∀ o : Nat, countOffset l o ≤ 1

/-- A concrete reference state, mirroring the constructor defaults of the
component (horizontal, range 12-108, key width 16, both black-note ratios 0.7,
channel 1, display mask 0xffff, velocity 1, scrollable). -/
def baseState : KState :=
  { orientation := horizontalKeyboard
    rangeStart := 12
    rangeEnd := 108
    firstKey := 12
    keyWidth := 16
    xOffset := 0
    blackNoteWidthRatio := 7/10
    blackNoteLengthRatio := 7/10
    canScroll := true
    scrollDownVisible := false
    scrollUpVisible := false
    width := 500
    height := 100
    midiChannel := 1
    midiInChannelMask := 65535
    velocity := 1
    useMousePositionForVelocity := false
    keysPressed := ∅
    mouseOverNotes := []
    mouseDownNotes := []
    keyBindings := []
    keyMappingOctave := 5
    octaveNumForMiddleC := 3
    shouldCheckState := false }

/-- The full-range configuration of the round-trip claim: default ratios,
whole note range visible from its start (no scroll offset), wide enough
viewport. -/
def fullRangeState : KState :=
  { baseState with
    rangeStart := 0
    rangeEnd := 127
    firstKey := 0
    keyWidth := 100
    width := 20000
    height := 10 }

/-- The scenario state of the span-table claim: horizontal, key width 20,
range [60,72], default ratios, no scroll offset. -/
def middleCOctaveState : KState :=
  { baseState with
    rangeStart := 60
    rangeEnd := 72
    firstKey := 60
    keyWidth := 20
    width := 1000 }

/-- A state with a fractional lowest-visible key whose truncation equals the
range start, scroll buttons disabled, and the whole range fitting in the
viewport. -/
def fracFirstKeyState : KState :=
  { middleCOctaveState with firstKey := 121/2, canScroll := false }

theorem le_jlimit {α : Type} [LinearOrder α] {lo hi : α} (v : α) (h : lo ≤ hi) :
    lo ≤ jlimit lo hi v := by
  unfold jlimit
  split
  · exact le_refl lo
  · split
    · exact h
    · exact le_of_not_lt (by assumption)

theorem jlimit_le {α : Type} [LinearOrder α] {lo hi : α} (v : α) (h : lo ≤ hi) :
    jlimit lo hi v ≤ hi := by
  unfold jlimit
  split
  · exact h
  · split
    · exact le_refl hi
    · exact le_of_not_lt (by assumption)

theorem jlimit_eq_self {α : Type} [LinearOrder α] {lo hi v : α} (h1 : lo ≤ v) (h2 : v ≤ hi) :
    jlimit lo hi v = v := by
  unfold jlimit
  rw [if_neg (not_lt.2 h1), if_neg (not_lt.2 h2)]

theorem jlimit_eq_lo {α : Type} [LinearOrder α] {lo hi v : α} (h : v < lo) :
    jlimit lo hi v = lo := by
  unfold jlimit
  rw [if_pos h]

/-- Claim C7 is false as stated: the black-note length-ratio setter does not
clamp; a ratio of 2 is stored as 2, outside [0,1] (`jassert` is a debug
assertion only, lines 549-558). -/
theorem blackNoteLength_setter_no_clamp :
    (setBlackNoteLengthProportion baseState 2).1.blackNoteLengthRatio = 2
    ∧ ¬ (setBlackNoteLengthProportion baseState 2).1.blackNoteLengthRatio ≤ 1 := by
  constructor
  · decide
  · decide

/-- Claim C7 amended: the velocity scalar is clamped to [0,1] and range
bounds are clamped to [0,127] (on an actual change); the two black-note ratio
setters do not clamp, they assert in debug builds and store the given value
unchanged.  No setter rejects its input. -/
theorem setters_clamp (st : KState) (v : ℚ) (b : Bool) (lo hi : Int) (r : ℚ)
    (hne : ¬((st.rangeStart : Int) = lo ∧ (st.rangeEnd : Int) = hi)) :
    (0 ≤ (setVelocity st v b).velocity ∧ (setVelocity st v b).velocity ≤ 1)
    ∧ ((setAvailableRange st lo hi).1.rangeStart ≤ 127
        ∧ (setAvailableRange st lo hi).1.rangeEnd ≤ 127)
    ∧ (setBlackNoteLengthProportion st r).1.blackNoteLengthRatio = r
    ∧ (setBlackNoteWidthProportion st r).1.blackNoteWidthRatio = r := by
  refine ⟨⟨?_, ?_⟩, ⟨?_, ?_⟩, ?_, ?_⟩
  · exact le_jlimit v (by norm_num)
  · exact jlimit_le v (by norm_num)
  · have hcond : (st.rangeStart : Int) ≠ lo ∨ (st.rangeEnd : Int) ≠ hi := by tauto
    rw [setAvailableRange, if_pos hcond]
    have h1 : jlimit (0 : Int) 127 lo ≤ 127 := jlimit_le lo (by norm_num)
    dsimp only
    omega
  · have hcond : (st.rangeStart : Int) ≠ lo ∨ (st.rangeEnd : Int) ≠ hi := by tauto
    rw [setAvailableRange, if_pos hcond]
    have h1 : jlimit (0 : Int) 127 hi ≤ 127 := jlimit_le hi (by norm_num)
    dsimp only
    omega
  · rw [setBlackNoteLengthProportion]
    split
    · simpa using (by assumption : st.blackNoteLengthRatio = r)
    · rfl
  · rw [setBlackNoteWidthProportion]
    split
    · simpa using (by assumption : st.blackNoteWidthRatio = r)
    · rfl

theorem setters_clamp_witness :
    ¬(((baseState.rangeStart : Int) = -5) ∧ ((baseState.rangeEnd : Int) = 200))
    ∧ (0 ≤ (setVelocity baseState 5 true).velocity
        ∧ (setVelocity baseState 5 true).velocity ≤ 1)
    ∧ ((setAvailableRange baseState (-5) 200).1.rangeStart ≤ 127
        ∧ (setAvailableRange baseState (-5) 200).1.rangeEnd ≤ 127)
    ∧ (setBlackNoteLengthProportion baseState 3).1.blackNoteLengthRatio = 3
    ∧ (setBlackNoteWidthProportion baseState 3).1.blackNoteWidthRatio = 3 :=
  ⟨by decide, setters_clamp baseState 5 true (-5) 200 3 (by decide)⟩

/-- Claim C8 is false as stated: `setOctaveForMiddleC` issues a repaint
request even when called with the value already stored (lines 508-512 have no
guard). -/
theorem setOctaveForMiddleC_always_repaints :
    baseState.octaveNumForMiddleC = 3
    ∧ (setOctaveForMiddleC baseState 3).1 = baseState
    ∧ (setOctaveForMiddleC baseState 3).2 = [UISignal.repaintAll] := by
  refine ⟨by decide, by decide, by decide⟩

/-- Claim C8 amended: every public configuration setter except
`setOctaveForMiddleC` (which always repaints) and `setMidiChannelsToDisplay`
(which always sets the dirty-check flag) is idempotent: called with the value
already stored it leaves the state unchanged and issues no relayout or
repaint request and no MIDI event.  (For the velocity and the lowest-visible
note the stored value is assumed inside its valid interval, which every
run of the corresponding setter guarantees.) -/
theorem setters_idempotent (st : KState) :
    (∀ w : ℚ, st.keyWidth = w → setKeyWidth st w = (st, []))
    ∧ (∀ o : Orientation, st.orientation = o → setOrientation st o = (st, []))
    ∧ (∀ lo hi : Int, (st.rangeStart : Int) = lo → (st.rangeEnd : Int) = hi →
        setAvailableRange st lo hi = (st, []))
    ∧ (∀ b : Bool, st.canScroll = b → setScrollButtonsVisible st b = (st, []))
    ∧ (∀ c : Int, (st.midiChannel : Int) = c → setMidiChannel st c = (st, []))
    ∧ (∀ v : ℚ, ∀ b : Bool, st.velocity = v → st.useMousePositionForVelocity = b →
        0 ≤ v → v ≤ 1 → setVelocity st v b = st)
    ∧ (∀ n : ℚ, st.firstKey = n → (st.rangeStart : ℚ) ≤ n → n ≤ (st.rangeEnd : ℚ) →
        setLowestVisibleKeyFloat st n = (st, []))
    ∧ (∀ r : ℚ, st.blackNoteLengthRatio = r → setBlackNoteLengthProportion st r = (st, []))
    ∧ (∀ r : ℚ, st.blackNoteWidthRatio = r → setBlackNoteWidthProportion st r = (st, [])) := by
  refine ⟨?_, ?_, ?_, ?_, ?_, ?_, ?_, ?_, ?_⟩
  · intro w hw
    rw [setKeyWidth, if_pos hw]
  · intro o ho
    rw [setOrientation, if_pos ho]
  · intro lo hi h1 h2
    rw [setAvailableRange, if_neg]
    push_neg
    exact ⟨h1, h2⟩
  · intro b hb
    rw [setScrollButtonsVisible, if_pos hb]
  · intro c hc
    rw [setMidiChannel, if_neg (not_not_intro hc)]
  · intro v b hv hb h0 h1
    rw [setVelocity, jlimit_eq_self h0 h1, ← hv, ← hb]
  · intro n hn hlo hhi
    subst hn
    rw [setLowestVisibleKeyFloat]
    rw [jlimit_eq_self hlo hhi, if_neg (not_not_intro rfl)]
  · intro r hr
    rw [setBlackNoteLengthProportion, if_pos hr]
  · intro r hr
    rw [setBlackNoteWidthProportion, if_pos hr]

theorem setters_idempotent_witness :
    setKeyWidth baseState 16 = (baseState, [])
    ∧ setLowestVisibleKeyFloat baseState 12 = (baseState, []) :=
  ⟨(setters_idempotent baseState).1 16 (by decide),
   (setters_idempotent baseState).2.2.2.2.2.2.1 12 (by decide) (by decide) (by decide)⟩

theorem rat_floor_natCast (k : Nat) : Rat.floor ((k : Nat) : ℚ) = k := by
  rw [Rat.floor_def']
  simp

theorem cTrunc_natCast (k : Nat) : cTruncToInt ((k : Nat) : ℚ) = k := by
  unfold cTruncToInt
  rw [if_pos (by positivity)]
  exact rat_floor_natCast k

/-- Claim C4: `setLowestVisibleKeyFloat` stores the input clamped to the
available range; the change broadcast is sent iff the truncated value moved;
relayout is requested iff the clamped value differs from the stored one; and
after either setter the lowest-visible key lies inside the available range. -/
theorem setLowestVisibleKey_spec (st : KState) (n : ℚ)
    (hr : st.rangeStart ≤ st.rangeEnd)
    (hfk1 : (st.rangeStart : ℚ) ≤ st.firstKey) (hfk2 : st.firstKey ≤ (st.rangeEnd : ℚ)) :
    (setLowestVisibleKeyFloat st n).1.firstKey
        = jlimit (st.rangeStart : ℚ) (st.rangeEnd : ℚ) n
    ∧ (UISignal.sendChange ∈ (setLowestVisibleKeyFloat st n).2
        ↔ cTruncToInt (jlimit (st.rangeStart : ℚ) (st.rangeEnd : ℚ) n) ≠ cTruncToInt st.firstKey)
    ∧ (UISignal.resizedCall ∈ (setLowestVisibleKeyFloat st n).2
        ↔ jlimit (st.rangeStart : ℚ) (st.rangeEnd : ℚ) n ≠ st.firstKey)
    ∧ ((st.rangeStart : ℚ) ≤ (setLowestVisibleKeyFloat st n).1.firstKey
        ∧ (setLowestVisibleKeyFloat st n).1.firstKey ≤ (st.rangeEnd : ℚ))
    ∧ (∀ lo hi : Int, 0 ≤ lo → lo ≤ hi → hi ≤ 127 →
        (((setAvailableRange st lo hi).1.rangeStart : ℚ)
            ≤ (setAvailableRange st lo hi).1.firstKey
         ∧ (setAvailableRange st lo hi).1.firstKey
            ≤ ((setAvailableRange st lo hi).1.rangeEnd : ℚ))) := by
  have hrq : (st.rangeStart : ℚ) ≤ (st.rangeEnd : ℚ) := by exact_mod_cast hr
  constructor
  · rw [setLowestVisibleKeyFloat]
    split
    · rfl
    · next hq => exact (not_not.1 hq).symm
  constructor
  · rw [setLowestVisibleKeyFloat]
    split
    · next hq =>
      dsimp only
      constructor
      · intro hm
        rcases List.mem_append.1 hm with hm | hm
        · split at hm
          · next hMoved => exact fun hcon => hMoved hcon.symm
          · simp at hm
        · simp at hm
      · intro hne
        apply List.mem_append.2
        left
        rw [if_pos (fun hcon => hne hcon.symm)]
        exact List.mem_singleton.2 rfl
    · next hq =>
      have hq2 := not_not.1 hq
      simp [hq2]
  constructor
  · rw [setLowestVisibleKeyFloat]
    split
    · next hq =>
      dsimp only
      simp only [List.mem_append, List.mem_singleton]
      constructor
      · intro _
        exact hq
      · intro _
        right
        trivial
    · next hq =>
      have hq2 := not_not.1 hq
      simp [hq2]
  constructor
  · rw [setLowestVisibleKeyFloat]
    split
    · exact ⟨le_jlimit n hrq, jlimit_le n hrq⟩
    · next hq =>
      exact ⟨hfk1, hfk2⟩
  · intro lo hi h0 hlh h127
    rw [setAvailableRange]
    split
    · dsimp only
      have e1 : jlimit (0 : Int) 127 lo = lo := jlimit_eq_self h0 (by omega)
      have e2 : jlimit (0 : Int) 127 hi = hi := jlimit_eq_self (by omega) h127
      have hc : ((jlimit (0 : Int) 127 lo).toNat : ℚ) ≤ ((jlimit (0 : Int) 127 hi).toNat : ℚ) := by
        rw [e1, e2]
        have : lo.toNat ≤ hi.toNat := by omega
        exact_mod_cast this
      exact ⟨le_jlimit st.firstKey hc, jlimit_le st.firstKey hc⟩
    · exact ⟨hfk1, hfk2⟩

theorem setLowestVisibleKey_spec_witness :
    (setLowestVisibleKeyFloat baseState 200).1.firstKey = 108
    ∧ ((setAvailableRange baseState 0 127).1.rangeStart : ℚ)
        ≤ (setAvailableRange baseState 0 127).1.firstKey := by
  have h := setLowestVisibleKey_spec baseState 200 (by decide) (by decide) (by decide)
  refine ⟨?_, (h.2.2.2.2 0 127 (by decide) (by decide) (by decide)).1⟩
  rw [h.1]
  decide

/-- Claim C9 is false as stated: in `fracFirstKeyState` the lowest-visible
key (60.5) differs from the range start (60) and the whole key span fits the
viewport, yet `resized` sends no viewport-changed broadcast (it snaps the
key silently, because the snap-and-notify branch compares the truncated
value, which already equals the range start). -/
theorem resized_snap_without_signal :
    fracFirstKeyState.firstKey ≠ (fracFirstKeyState.rangeStart : ℚ)
    ∧ 0 < fracFirstKeyState.width ∧ 0 < fracFirstKeyState.height
    ∧ (getKeyPos fracFirstKeyState fracFirstKeyState.rangeEnd).stop
        - (getKeyPos fracFirstKeyState fracFirstKeyState.rangeStart).start
        ≤ (fracFirstKeyState.width : ℚ)
    ∧ fracFirstKeyState.orientation = horizontalKeyboard
    ∧ UISignal.sendChange ∉ (resized fracFirstKeyState).2 := by
  refine ⟨by decide, by decide, by decide, by decide, by decide, by decide⟩

/-- Claim C9 amended: `resized` is a no-op when either dimension is ≤ 0; and
when the TRUNCATED lowest-visible key differs from the range start while the
span from the range start to the range end fits in the available size (after
the orientation swap), it snaps the lowest-visible key back to the range
start and sends the viewport-changed broadcast. -/
theorem resized_noop_and_snap (st : KState) :
    (st.width ≤ 0 ∨ st.height ≤ 0 → resized st = (st, []))
    ∧ (0 < st.width → 0 < st.height →
        cTruncToInt st.firstKey ≠ (st.rangeStart : Int) →
        (getKeyPos st st.rangeEnd).stop - (getKeyPos st st.rangeStart).start
          ≤ (if st.orientation ≠ horizontalKeyboard then (st.height : ℚ) else (st.width : ℚ)) →
        (resized st).1.firstKey = (st.rangeStart : ℚ)
        ∧ UISignal.sendChange ∈ (resized st).2) := by
  constructor
  · intro h
    rw [resized, if_pos h]
  · intro hw hh htr hfit
    rw [resized, if_neg (by omega)]
    dsimp only
    rw [if_pos htr]
    generalize hW : (if st.orientation ≠ horizontalKeyboard then (st.height : ℚ) else (st.width : ℚ)) = w0
    rw [hW] at hfit
    rw [if_pos hfit]
    dsimp only
    split
    · next hcs =>
      try dsimp only
      split
      · next hlsk =>
        try dsimp only
        constructor
        · rw [jlimit_eq_lo]
          · push_cast
            rfl
          · have := hlsk.2
            rwa [cTrunc_natCast] at this
        · simp
      · next hlsk =>
        exact ⟨rfl, by simp⟩
    · next hcs =>
      exact ⟨rfl, by simp⟩

theorem resized_noop_and_snap_witness :
    (resized { middleCOctaveState with firstKey := 70 }).1.firstKey
        = (({ middleCOctaveState with firstKey := 70 } : KState).rangeStart : ℚ)
    ∧ UISignal.sendChange ∈ (resized { middleCOctaveState with firstKey := 70 }).2 := by
  have h := (resized_noop_and_snap { middleCOctaveState with firstKey := 70 }).2
    (by decide) (by decide) (by decide) (by decide)
  exact ⟨h.1, h.2⟩

theorem findSource_eq_none {s : SourceId} {l : List InputIndex} :
    findSource s l = none ↔ ∀ x ∈ l, x.source ≠ s := by
  induction l with
  | nil => simp [findSource]
  | cons a t ih =>
    simp only [findSource]
    split
    · next h =>
      constructor
      · intro hc
        exact absurd hc (by simp)
      · intro hall
        exact absurd h (hall a (by simp))
    · next h =>
      rw [ih]
      constructor
      · intro hall x hx
        rcases List.mem_cons.1 hx with rfl | hx
        · exact h
        · exact hall x hx
      · intro hall x hx
        exact hall x (List.mem_cons_of_mem a hx)

theorem findSource_some_mem {s : SourceId} {l : List InputIndex} {d : InputIndex}
    (h : findSource s l = some d) : d ∈ l ∧ d.source = s := by
  induction l with
  | nil => simp [findSource] at h
  | cons a t ih =>
    rw [findSource] at h
    split at h
    · next ha =>
      rw [Option.some_inj] at h
      subst h
      exact ⟨List.mem_cons_self _ _, ha⟩
    · next ha =>
      rcases ih h with ⟨h1, h2⟩
      exact ⟨List.mem_cons_of_mem a h1, h2⟩

theorem eraseSource_of_none {s : SourceId} {l : List InputIndex}
    (h : findSource s l = none) : eraseSource s l = l := by
  induction l with
  | nil => rfl
  | cons a t ih =>
    rw [findSource] at h
    split at h
    · exact absurd h (by simp)
    · next ha =>
      rw [eraseSource, if_neg ha, ih h]

theorem eraseSource_sublist (s : SourceId) (l : List InputIndex) :
    (eraseSource s l).Sublist l := by
  induction l with
  | nil => exact List.Sublist.refl []
  | cons a t ih =>
    rw [eraseSource]
    split
    · exact List.sublist_cons_self a t
    · exact List.Sublist.cons₂ a ih

theorem mem_eraseSource_of_ne {s : SourceId} {l : List InputIndex} {x : InputIndex}
    (hx : x ∈ l) (hne : x.source ≠ s) : x ∈ eraseSource s l := by
  induction l with
  | nil => simp at hx
  | cons a t ih =>
    rw [eraseSource]
    rcases List.mem_cons.1 hx with rfl | hxt
    · rw [if_neg hne]
      exact List.mem_cons_self _ _
    · split
      · exact hxt
      · exact List.mem_cons_of_mem a (ih hxt)

theorem eraseSource_no_source {s : SourceId} {l : List InputIndex}
    (hu : sourcesUnique l) : ∀ x ∈ eraseSource s l, x.source ≠ s := by
  induction l with
  | nil => simp [eraseSource]
  | cons a t ih =>
    rw [eraseSource]
    have hu2 : sourcesUnique t := (List.nodup_cons.1 hu).2
    have hamem : a.source ∉ t.map InputIndex.source := (List.nodup_cons.1 hu).1
    split
    · next ha =>
      intro x hx hc
      exact hamem (ha ▸ hc ▸ List.mem_map_of_mem InputIndex.source hx)
    · next ha =>
      intro x hx
      rcases List.mem_cons.1 hx with rfl | hxt
      · exact ha
      · exact ih hu2 x hxt

theorem sourcesUnique_eraseSource {s : SourceId} {l : List InputIndex}
    (hu : sourcesUnique l) : sourcesUnique (eraseSource s l) :=
  List.Nodup.sublist (List.Sublist.map InputIndex.source (eraseSource_sublist s l)) hu

theorem sourcesUnique_append {s : SourceId} {l : List InputIndex} {n : Int}
    (hu : sourcesUnique l) (hno : ∀ x ∈ l, x.source ≠ s) :
    sourcesUnique (l ++ [⟨s, n⟩]) := by
  unfold sourcesUnique
  rw [List.map_append]
  apply List.Nodup.append hu (by simp)
  intro a ha hb
  rcases List.mem_map.1 ha with ⟨x, hx, rfl⟩
  simp only [List.map_cons, List.map_nil, List.mem_singleton] at hb
  exact hno x hx hb

theorem setSourceNote_map_source (s : SourceId) (n : Int) (l : List InputIndex) :
    (setSourceNote s n l).map InputIndex.source = l.map InputIndex.source := by
  induction l with
  | nil => rfl
  | cons a t ih =>
    rw [setSourceNote]
    split
    · simp
    · simp [ih]

theorem sourcesUnique_setSourceNote {s : SourceId} {n : Int} {l : List InputIndex}
    (hu : sourcesUnique l) : sourcesUnique (setSourceNote s n l) := by
  unfold sourcesUnique
  rw [setSourceNote_map_source]
  exact hu

theorem containsNoteNumber_iff {l : List InputIndex} {n : Int} :
    containsNoteNumber l n = true ↔ ∃ x ∈ l, x.noteNumber = n := by
  unfold containsNoteNumber
  simp

theorem countNote_eq_one {s : SourceId} {l : List InputIndex} {d : InputIndex} {n : Int}
    (hf : findSource s l = some d) (hd : d.noteNumber = n)
    (hc : containsNoteNumber (eraseSource s l) n = false) : countNote l n = 1 := by
  induction l with
  | nil => simp [findSource] at hf
  | cons a t ih =>
    rw [findSource] at hf
    rw [eraseSource] at hc
    split at hf
    · next ha =>
      cases hf
      rw [if_pos ha] at hc
      unfold countNote
      rw [List.filter_cons, if_pos (by simpa using hd)]
      have : countNote t n = 0 := by
        unfold countNote
        rw [List.length_eq_zero, List.filter_eq_nil]
        intro x hx
        simp only [decide_eq_true_eq]
        intro hxn
        have : containsNoteNumber t n = true := containsNoteNumber_iff.2 ⟨x, hx, hxn⟩
        rw [this] at hc
        cases hc
      unfold countNote at this
      rw [List.length_cons, this]
    · next ha =>
      rw [if_neg ha] at hc
      have han : a.noteNumber ≠ n := by
        intro hcon
        have : containsNoteNumber (a :: eraseSource s t) n = true :=
          containsNoteNumber_iff.2 ⟨a, List.mem_cons_self _ _, hcon⟩
        rw [this] at hc
        cases hc
      have hct : containsNoteNumber (eraseSource s t) n = false := by
        cases hres : containsNoteNumber (eraseSource s t) n
        · rfl
        · rcases containsNoteNumber_iff.1 hres with ⟨x, hx, hxn⟩
          have : containsNoteNumber (a :: eraseSource s t) n = true :=
            containsNoteNumber_iff.2 ⟨x, List.mem_cons_of_mem a hx, hxn⟩
          rw [this] at hc
          cases hc
      unfold countNote
      rw [List.filter_cons, if_neg (by simpa using han)]
      exact ih hf hct

theorem updateHover_fields (st : KState) (nn : Int) (src : SourceId) :
    (updateHover st nn src).1.mouseDownNotes = st.mouseDownNotes
    ∧ (updateHover st nn src).1.midiChannel = st.midiChannel := by
  unfold updateHover
  dsimp only
  repeat' split
  all_goals exact ⟨rfl, rfl⟩

theorem updatePress_overNotes (st : KState) (nn od : Int) (v : ℚ) (dn : Bool) (src : SourceId) :
    (updatePress st nn od v dn src).1.mouseOverNotes = st.mouseOverNotes := by
  unfold updatePress
  dsimp only
  repeat' split
  all_goals rfl

theorem updatePress_events_channel (st : KState) (nn od : Int) (v : ℚ) (dn : Bool)
    (src : SourceId) :
    ∀ e ∈ (updatePress st nn od v dn src).2, e.channel = st.midiChannel := by
  intro e he
  unfold updatePress at he
  dsimp only at he
  repeat' split at he
  all_goals try dsimp only at he
  all_goals
    first
    | exact absurd he (List.not_mem_nil e)
    | (simp only [List.mem_append, List.mem_singleton, List.not_mem_nil,
          false_or, or_false] at he
       rcases he with rfl | rfl <;> rfl)
    | (simp only [List.mem_append, List.mem_singleton, List.not_mem_nil,
          false_or, or_false] at he
       subst he
       rfl)

theorem updateNote_events_channel (st : KState) (nn : Int) (mpv : ℚ) (dn : Bool)
    (src : SourceId) :
    ∀ e ∈ (updateNoteUnderMouse st nn mpv dn src).2.1, e.channel = st.midiChannel := by
  intro e he
  unfold updateNoteUnderMouse at he
  dsimp only at he
  have h := updatePress_events_channel (updateHover st nn src).1 nn
    (oldNoteOf st.mouseDownNotes src)
    (max 0 (if st.useMousePositionForVelocity then mpv * st.velocity else 1)) dn src e he
  rw [(updateHover_fields st nn src).2] at h
  exact h

/-- Claim C5: switching to a different (valid) MIDI channel first emits
note-off on the OLD channel for every held note - every bit of the
physical-press bitset and every mouse-down entry - empties the bitset, the
press set and the hover set, and only then installs the new channel; events
emitted afterwards carry the new channel. -/
theorem setMidiChannel_releases_held (st : KState) (c : Int)
    (h1 : 1 ≤ c) (h16 : c ≤ 16) (hne : (st.midiChannel : Int) ≠ c)
    (hbits : ∀ i ∈ st.keysPressed, i < 128) :
    (∀ i ∈ st.keysPressed,
        MidiEvent.mk false st.midiChannel (i : Int) 0 ∈ (setMidiChannel st c).2)
    ∧ (∀ m ∈ st.mouseDownNotes,
        MidiEvent.mk false st.midiChannel m.noteNumber 0 ∈ (setMidiChannel st c).2)
    ∧ (∀ e ∈ (setMidiChannel st c).2, e.isOn = false ∧ e.channel = st.midiChannel)
    ∧ (setMidiChannel st c).1.keysPressed = ∅
    ∧ (setMidiChannel st c).1.mouseDownNotes = []
    ∧ (setMidiChannel st c).1.mouseOverNotes = []
    ∧ ((setMidiChannel st c).1.midiChannel : Int) = c
    ∧ (∀ nn : Int, ∀ mpv : ℚ, ∀ dn : Bool, ∀ src : SourceId,
        ∀ e ∈ (updateNoteUnderMouse (setMidiChannel st c).1 nn mpv dn src).2.1,
          (e.channel : Int) = c) := by
  rw [setMidiChannel, if_pos hne]
  dsimp only
  unfold resetAnyKeysInUse
  dsimp only
  have hch : (jlimit 1 16 c).toNat = c.toNat := by
    rw [jlimit_eq_self h1 h16]
  refine ⟨?_, ?_, ?_, rfl, rfl, rfl, ?_, ?_⟩
  · intro i hi
    apply List.mem_append.2
    left
    rw [if_pos (Finset.ne_empty_of_mem hi)]
    have hmem : i ∈ (List.range 128).reverse.filter (fun j => decide (j ∈ st.keysPressed)) := by
      rw [List.mem_filter, List.mem_reverse]
      exact ⟨List.mem_range.2 (hbits i hi), by simpa using hi⟩
    exact List.mem_map_of_mem (fun j : Nat => MidiEvent.mk false st.midiChannel (j : Int) 0) hmem
  · intro m hm
    apply List.mem_append.2
    right
    exact List.mem_map.2 ⟨m, hm, rfl⟩
  · intro e he
    rcases List.mem_append.1 he with he | he
    · split at he
      · rcases List.mem_map.1 he with ⟨i, _, rfl⟩
        exact ⟨rfl, rfl⟩
      · simp at he
    · rcases List.mem_map.1 he with ⟨m, _, rfl⟩
      exact ⟨rfl, rfl⟩
  · rw [hch]
    omega
  · intro nn mpv dn src e he
    have h := updateNote_events_channel _ nn mpv dn src e he
    rw [h]
    dsimp only
    rw [hch]
    omega

theorem setMidiChannel_releases_held_witness :
    MidiEvent.mk false 1 60 0
      ∈ (setMidiChannel
          { baseState with
              keysPressed := {60}
              mouseDownNotes := [⟨⟨0, 0⟩, 64⟩] } 2).2
    ∧ MidiEvent.mk false 1 64 0
      ∈ (setMidiChannel
          { baseState with
              keysPressed := {60}
              mouseDownNotes := [⟨⟨0, 0⟩, 64⟩] } 2).2 := by
  have h := setMidiChannel_releases_held
    { baseState with keysPressed := {60}, mouseDownNotes := [⟨⟨0, 0⟩, 64⟩] } 2
    (by decide) (by decide) (by decide) (by decide)
  exact ⟨h.1 60 (by decide), h.2.1 ⟨⟨0, 0⟩, 64⟩ (by simp)⟩

theorem setSourceNote_notes {s : SourceId} {n : Int} {l : List InputIndex}
    (hp : ∀ x ∈ l, 0 ≤ x.noteNumber) (hn : 0 ≤ n) :
    ∀ x ∈ setSourceNote s n l, 0 ≤ x.noteNumber := by
  induction l with
  | nil => simp [setSourceNote]
  | cons a t ih =>
    rw [setSourceNote]
    have hpt : ∀ x ∈ t, 0 ≤ x.noteNumber := fun x hx => hp x (List.mem_cons_of_mem a hx)
    split
    · intro x hx
      rcases List.mem_cons.1 hx with rfl | hx
      · exact hn
      · exact hpt x hx
    · intro x hx
      rcases List.mem_cons.1 hx with rfl | hx
      · exact hp x (List.mem_cons_self _ _)
      · exact ih hpt x hx

theorem updateHover_invariant (st : KState) (nn : Int) (src : SourceId)
    (hnn : nn = -1 ∨ 0 ≤ nn)
    (hu : sourcesUnique st.mouseOverNotes)
    (hp : ∀ x ∈ st.mouseOverNotes, 0 ≤ x.noteNumber) :
    sourcesUnique (updateHover st nn src).1.mouseOverNotes
    ∧ ∀ x ∈ (updateHover st nn src).1.mouseOverNotes, 0 ≤ x.noteNumber := by
  unfold updateHover
  dsimp only
  split
  · split
    · exact ⟨sourcesUnique_eraseSource hu,
        fun x hx => hp x ((eraseSource_sublist src _).subset hx)⟩
    · next h1 =>
      split
      · next h2 =>
        have hfind : findSource src st.mouseOverNotes = none := by
          cases hf : findSource src st.mouseOverNotes with
          | none => rfl
          | some d =>
            have hd := findSource_some_mem hf
            have hdp := hp d hd.1
            unfold oldNoteOf at h2
            rw [hf] at h2
            have h2d : d.noteNumber = -1 := h2
            exfalso
            omega
        have hno := findSource_eq_none.1 hfind
        constructor
        · exact sourcesUnique_append hu hno
        · intro x hx
          rcases List.mem_append.1 hx with hx | hx
          · exact hp x hx
          · rw [List.mem_singleton] at hx
            subst hx
            rcases hnn with h | h
            · exact absurd h h1
            · exact h
      · constructor
        · exact sourcesUnique_setSourceNote hu
        · refine setSourceNote_notes hp ?_
          rcases hnn with h | h
          · exact absurd h h1
          · exact h
  · exact ⟨hu, hp⟩

theorem updatePress_invariant (st : KState) (nn : Int) (v : ℚ) (dn : Bool) (src : SourceId)
    (hu : sourcesUnique st.mouseDownNotes)
    (hp : ∀ x ∈ st.mouseDownNotes, 0 ≤ x.noteNumber) :
    sourcesUnique
        (updatePress st nn (oldNoteOf st.mouseDownNotes src) v dn src).1.mouseDownNotes
    ∧ ∀ x ∈ (updatePress st nn (oldNoteOf st.mouseDownNotes src) v dn src).1.mouseDownNotes,
        0 ≤ x.noteNumber := by
  have herase1 : sourcesUnique (eraseSource src st.mouseDownNotes) :=
    sourcesUnique_eraseSource hu
  have herase2 : ∀ x ∈ eraseSource src st.mouseDownNotes, 0 ≤ x.noteNumber :=
    fun x hx => hp x ((eraseSource_sublist src _).subset hx)
  unfold updatePress
  dsimp only
  split
  · split
    · exact ⟨hu, hp⟩
    · split
      · next hod =>
        split
        · dsimp only
          split
          · next hguard =>
            constructor
            · exact sourcesUnique_append herase1 (eraseSource_no_source hu)
            · intro x hx
              rcases List.mem_append.1 hx with hx | hx
              · exact herase2 x hx
              · rw [List.mem_singleton] at hx
                subst hx
                exact hguard.1
          · exact ⟨herase1, herase2⟩
        · dsimp only
          split
          · next hguard =>
            constructor
            · exact sourcesUnique_append herase1 (eraseSource_no_source hu)
            · intro x hx
              rcases List.mem_append.1 hx with hx | hx
              · exact herase2 x hx
              · rw [List.mem_singleton] at hx
                subst hx
                exact hguard.1
          · exact ⟨herase1, herase2⟩
      · next hod =>
        have hfind : findSource src st.mouseDownNotes = none := by
          cases hf : findSource src st.mouseDownNotes with
          | none => rfl
          | some d =>
            have hd := findSource_some_mem hf
            have hdp := hp d hd.1
            unfold oldNoteOf at hod
            rw [hf] at hod
            have hodd : ¬ (0 : Int) ≤ d.noteNumber := hod
            exfalso
            omega
        have hno := findSource_eq_none.1 hfind
        dsimp only
        split
        · next hguard =>
          constructor
          · exact sourcesUnique_append hu hno
          · intro x hx
            rcases List.mem_append.1 hx with hx | hx
            · exact hp x hx
            · rw [List.mem_singleton] at hx
              subst hx
              exact hguard.1
        · exact ⟨hu, hp⟩
  · split
    · exact ⟨hu, hp⟩
    · split
      · exact ⟨herase1, herase2⟩
      · exact ⟨herase1, herase2⟩

/-- Claim C10: each pointer-source identity occurs at most once in the hover
set and in the press set (together with the companion invariant that every
stored note is non-negative, which the insertion guards maintain), and both
`updateNoteUnderMouse` - for any event kind and any hit-test result - and
`resetAnyKeysInUse` preserve this. -/
theorem pointer_sets_source_unique (st : KState) (nn : Int) (mpv : ℚ) (dn : Bool)
    (src : SourceId) (hnn : nn = -1 ∨ 0 ≤ nn)
    (hu1 : sourcesUnique st.mouseOverNotes)
    (hp1 : ∀ x ∈ st.mouseOverNotes, 0 ≤ x.noteNumber)
    (hu2 : sourcesUnique st.mouseDownNotes)
    (hp2 : ∀ x ∈ st.mouseDownNotes, 0 ≤ x.noteNumber) :
    (sourcesUnique (updateNoteUnderMouse st nn mpv dn src).1.mouseOverNotes
     ∧ (∀ x ∈ (updateNoteUnderMouse st nn mpv dn src).1.mouseOverNotes, 0 ≤ x.noteNumber)
     ∧ sourcesUnique (updateNoteUnderMouse st nn mpv dn src).1.mouseDownNotes
     ∧ (∀ x ∈ (updateNoteUnderMouse st nn mpv dn src).1.mouseDownNotes, 0 ≤ x.noteNumber))
    ∧ (sourcesUnique (resetAnyKeysInUse st).1.mouseOverNotes
       ∧ sourcesUnique (resetAnyKeysInUse st).1.mouseDownNotes) := by
  constructor
  · have hfields := updateHover_fields st nn src
    have hhover := updateHover_invariant st nn src hnn hu1 hp1
    have hu2h : sourcesUnique (updateHover st nn src).1.mouseDownNotes := by
      rw [hfields.1]
      exact hu2
    have hp2h : ∀ x ∈ (updateHover st nn src).1.mouseDownNotes, 0 ≤ x.noteNumber := by
      rw [hfields.1]
      exact hp2
    have hpress := updatePress_invariant (updateHover st nn src).1 nn
      (max 0 (if st.useMousePositionForVelocity then mpv * st.velocity else 1)) dn src
      hu2h hp2h
    unfold updateNoteUnderMouse
    dsimp only
    rw [updatePress_overNotes]
    rw [hfields.1] at hpress
    exact ⟨hhover.1, hhover.2, hpress.1, hpress.2⟩
  · unfold resetAnyKeysInUse
    exact ⟨by simp [sourcesUnique], by simp [sourcesUnique]⟩

theorem pointer_sets_source_unique_witness :
    sourcesUnique
      (updateNoteUnderMouse
        { baseState with mouseDownNotes := [⟨⟨0, 0⟩, 60⟩, ⟨⟨0, 1⟩, 60⟩] }
        62 0 true ⟨0, 0⟩).1.mouseDownNotes := by
  have h := pointer_sets_source_unique
    { baseState with mouseDownNotes := [⟨⟨0, 0⟩, 60⟩, ⟨⟨0, 1⟩, 60⟩] }
    62 0 true ⟨0, 0⟩ (by decide) (by decide) (by decide) (by decide) (by decide)
  exact h.1.2.2.1

theorem hasSourceNote_iff {l : List InputIndex} {src : SourceId} {n : Int} :
    hasSourceNote l src n = true ↔ ∃ x ∈ l, x.source = src ∧ x.noteNumber = n := by
  unfold hasSourceNote
  simp

theorem hasOtherSourceNote_iff {l : List InputIndex} {src : SourceId} {n : Int} :
    hasOtherSourceNote l src n = true ↔ ∃ x ∈ l, x.source ≠ src ∧ x.noteNumber = n := by
  unfold hasOtherSourceNote
  simp

theorem updatePress_noteOff_char (st : KState) (nn od : Int) (v : ℚ) (dn : Bool)
    (src : SourceId) (n : Int)
    (h : containsNoteOff (updatePress st nn od v dn src).2 n = true) :
    od = n ∧ 0 ≤ od
    ∧ containsNoteNumber (eraseSource src st.mouseDownNotes) od = false := by
  unfold updatePress at h
  dsimp only at h
  split at h
  · split at h
    · exact absurd h (by simp [containsNoteOff])
    · split at h
      · next hod =>
        split at h
        · next hcont =>
          dsimp only at h
          split at h
          · exact absurd h (by simp [containsNoteOff])
          · exact absurd h (by simp [containsNoteOff])
        · next hcont =>
          dsimp only at h
          split at h
          · have hodn : od = n := by simpa [containsNoteOff] using h
            exact ⟨hodn, hod, by simpa using hcont⟩
          · have hodn : od = n := by simpa [containsNoteOff] using h
            exact ⟨hodn, hod, by simpa using hcont⟩
      · next hod =>
        dsimp only at h
        split at h
        · exact absurd h (by simp [containsNoteOff])
        · exact absurd h (by simp [containsNoteOff])
  · split at h
    · exact absurd h (by simp [containsNoteOff])
    · next hod =>
      split at h
      · next hcont =>
        exact absurd h (by simp [containsNoteOff])
      · next hcont =>
        have hodn : od = n := by simpa [containsNoteOff] using h
        exact ⟨hodn, by omega, by simpa using hcont⟩

/-- Claim C2: when a note is pressed by two pointer sources with distinct
identities, a release event from one of them emits no note-off for that note;
and whenever a note-off for a note is emitted by any pointer event, the
acting source was the last holder: exactly one press entry held that note,
and it belonged to the acting source (reference counting over the mouse-down
set). -/
theorem noteOff_reference_counting (st : KState) (src : SourceId) (n nn : Int) (mpv : ℚ) :
    (hasSourceNote st.mouseDownNotes src n = true →
      hasOtherSourceNote st.mouseDownNotes src n = true →
      containsNoteOff (updateNoteUnderMouse st nn mpv false src).2.1 n = false)
    ∧ (∀ dn : Bool,
        containsNoteOff (updateNoteUnderMouse st nn mpv dn src).2.1 n = true →
        countNote st.mouseDownNotes n = 1
        ∧ hasSourceNote st.mouseDownNotes src n = true) := by
  have hfields := updateHover_fields st nn src
  have hchar : ∀ dn : Bool,
      containsNoteOff (updateNoteUnderMouse st nn mpv dn src).2.1 n = true →
      oldNoteOf st.mouseDownNotes src = n ∧ 0 ≤ oldNoteOf st.mouseDownNotes src
      ∧ containsNoteNumber (eraseSource src st.mouseDownNotes)
          (oldNoteOf st.mouseDownNotes src) = false := by
    intro dn h
    unfold updateNoteUnderMouse at h
    dsimp only at h
    have hc := updatePress_noteOff_char (updateHover st nn src).1 nn
      (oldNoteOf st.mouseDownNotes src)
      (max 0 (if st.useMousePositionForVelocity then mpv * st.velocity else 1)) dn src n h
    rw [hfields.1] at hc
    exact hc
  have hfind : ∀ dn : Bool,
      containsNoteOff (updateNoteUnderMouse st nn mpv dn src).2.1 n = true →
      ∃ d, findSource src st.mouseDownNotes = some d ∧ d.noteNumber = n
        ∧ containsNoteNumber (eraseSource src st.mouseDownNotes) n = false := by
    intro dn h
    rcases hchar dn h with ⟨hodn, hodpos, hcont⟩
    cases hf : findSource src st.mouseDownNotes with
    | none =>
      exfalso
      unfold oldNoteOf at hodpos
      rw [hf] at hodpos
      have : ¬ (0 : Int) ≤ -1 := by omega
      exact this hodpos
    | some d =>
      refine ⟨d, rfl, ?_, ?_⟩
      · unfold oldNoteOf at hodn
        rw [hf] at hodn
        exact hodn
      · rw [← hodn]
        exact hcont
  constructor
  · intro hsrc hother
    cases hres : containsNoteOff (updateNoteUnderMouse st nn mpv false src).2.1 n with
    | false => rfl
    | true =>
      exfalso
      rcases hfind false hres with ⟨d, hf, hdn, hcont⟩
      rcases hasOtherSourceNote_iff.1 hother with ⟨b, hb, hbsrc, hbn⟩
      have hbmem : b ∈ eraseSource src st.mouseDownNotes := mem_eraseSource_of_ne hb hbsrc
      have : containsNoteNumber (eraseSource src st.mouseDownNotes) n = true :=
        containsNoteNumber_iff.2 ⟨b, hbmem, hbn⟩
      rw [this] at hcont
      cases hcont
  · intro dn h
    rcases hfind dn h with ⟨d, hf, hdn, hcont⟩
    have hd := findSource_some_mem hf
    constructor
    · exact countNote_eq_one hf hdn hcont
    · exact hasSourceNote_iff.2 ⟨d, hd.1, hd.2, hdn⟩

theorem noteOff_reference_counting_witness :
    containsNoteOff
      (updateNoteUnderMouse
        { baseState with mouseDownNotes := [⟨⟨0, 0⟩, 60⟩, ⟨⟨0, 1⟩, 60⟩] }
        (-1) 0 false ⟨0, 0⟩).2.1 60 = false :=
  (noteOff_reference_counting
    { baseState with mouseDownNotes := [⟨⟨0, 0⟩, 60⟩, ⟨⟨0, 1⟩, 60⟩] }
    ⟨0, 0⟩ 60 (-1) 0).1 (by decide) (by decide)

theorem countOffset_append (a b : List KeyBinding) (o : Nat) :
    countOffset (a ++ b) o = countOffset a o + countOffset b o := by
  unfold countOffset
  rw [List.filter_append, List.length_append]

theorem countOffset_remove_self (l : List KeyBinding) (o : Nat) :
    countOffset (l.filter (fun b => b.noteOffset ≠ o)) o = 0 := by
  unfold countOffset
  rw [List.length_eq_zero, List.filter_eq_nil_iff]
  intro b hb
  rw [List.mem_filter] at hb
  simpa using hb.2

theorem countOffset_filter_le (l : List KeyBinding) (p : KeyBinding → Bool) (o : Nat) :
    countOffset (l.filter p) o ≤ countOffset l o :=
  List.Sublist.length_le (List.Sublist.filter _ (List.filter_sublist l))

theorem offsetsUnique_remove {st : KState} (o : Nat) (h : offsetsUnique st.keyBindings) :
    offsetsUnique (removeKeyPressForNote st o).keyBindings := by
  intro o2
  unfold removeKeyPressForNote
  exact le_trans (countOffset_filter_le _ _ _) (h o2)

theorem offsetsUnique_set {st : KState} (k o : Nat) (h : offsetsUnique st.keyBindings) :
    offsetsUnique (setKeyPressForNote st k o).keyBindings := by
  intro o2
  unfold setKeyPressForNote removeKeyPressForNote
  dsimp only
  rw [countOffset_append]
  by_cases ho : o2 = o
  · subst ho
    rw [countOffset_remove_self]
    simp [countOffset]
  · have h1 : countOffset [(⟨k, o⟩ : KeyBinding)] o2 = 0 := by
      simp [countOffset, Ne.symm ho]
    rw [h1]
    have h2 : countOffset (st.keyBindings.filter (fun b => b.noteOffset ≠ o)) o2 ≤ 1 :=
      le_trans (countOffset_filter_le _ _ _) (h o2)
    omega

theorem applyKeyMapOps_preserves (ops : List KeyMapOp) :
    ∀ st : KState, offsetsUnique st.keyBindings →
      offsetsUnique (applyKeyMapOps st ops).keyBindings := by
  induction ops with
  | nil =>
    intro st h
    exact h
  | cons op t ih =>
    intro st h
    cases op with
    | bind k o => exact ih _ (offsetsUnique_set k o h)
    | unbind o => exact ih _ (offsetsUnique_remove o h)

theorem keyStateStep_events_mono (st : KState) (down : Nat → Bool) (l : List KeyBinding) :
    ∀ acc : Finset Nat × List MidiEvent, ∀ e ∈ acc.2,
      e ∈ (l.foldl (keyStateStep st down) acc).2 := by
  induction l with
  | nil =>
    intro acc e he
    exact he
  | cons b t ih =>
    intro acc e he
    rw [List.foldl_cons]
    apply ih
    unfold keyStateStep
    dsimp only
    repeat' split
    all_goals first
      | exact he
      | exact List.mem_append_left _ he

theorem containsNoteOn_of_mem {evs : List MidiEvent} {e : MidiEvent} {n : Int}
    (he : e ∈ evs) (hon : e.isOn = true) (hn : e.note = n) :
    containsNoteOn evs n = true := by
  unfold containsNoteOn
  rw [List.any_eq_true]
  exact ⟨e, he, by simp [hon, hn]⟩

/-- Claim C6 is false as stated: binding key 0 to offset 0 and then rebinding
the same key to offset 1 leaves both bindings in place (removal is by offset,
not by key), so pressing the key fires BOTH offsets - note 60 (the old offset
0 at base octave 5) as well as note 61 - not only the newly bound one. -/
theorem rebind_key_fires_old_offset :
    containsNoteOn
      (keyStateChanged (setKeyPressForNote (setKeyPressForNote baseState 0 0) 0 1)
        (fun k => decide (k = 0))).2 60 = true
    ∧ containsNoteOn
      (keyStateChanged (setKeyPressForNote (setKeyPressForNote baseState 0 0) 0 1)
        (fun k => decide (k = 0))).2 61 = true
    ∧ (60 : Int) ≠ 12 * 5 + 1 := by
  refine ⟨by decide, by decide, by decide⟩

/-- Claim C6 amended: `setKeyPressForNote (k, o)` first removes every binding
whose offset equals `o` (regardless of key), then appends `(k, o)`; hence
after any sequence of bind/unbind calls each offset occurs at most once,
immediately after the call offset `o` occurs exactly once, and pressing `k`
afterward fires the newly bound offset (alongside any other offsets that key
is still bound to). -/
theorem keymap_offsets_unique (st : KState) (hinv : offsetsUnique st.keyBindings) :
    (∀ ops : List KeyMapOp, offsetsUnique (applyKeyMapOps st ops).keyBindings)
    ∧ (∀ k o : Nat, countOffset (setKeyPressForNote st k o).keyBindings o = 1)
    ∧ (∀ k o : Nat, ∀ down : Nat → Bool, down k = true →
        (12 * st.keyMappingOctave + o) ∉ st.keysPressed →
        containsNoteOn (keyStateChanged (setKeyPressForNote st k o) down).2
          ((12 * st.keyMappingOctave + o : Nat) : Int) = true) := by
  refine ⟨fun ops => applyKeyMapOps_preserves ops st hinv, ?_, ?_⟩
  · intro k o
    unfold setKeyPressForNote removeKeyPressForNote
    dsimp only
    rw [countOffset_append, countOffset_remove_self]
    simp [countOffset]
  · intro k o down hdown hnp
    unfold keyStateChanged setKeyPressForNote removeKeyPressForNote
    dsimp only
    rw [List.reverse_append, List.reverse_singleton, List.singleton_append, List.foldl_cons]
    have hstep : keyStateStep
        {st with keyBindings :=
          (st.keyBindings.filter (fun b => b.noteOffset ≠ o)) ++ [⟨k, o⟩]} down
        (st.keysPressed, []) ⟨k, o⟩
        = (insert (12 * st.keyMappingOctave + o) st.keysPressed,
           [MidiEvent.mk true st.midiChannel ((12 * st.keyMappingOctave + o : Nat) : Int)
             st.velocity]) := by
      unfold keyStateStep
      dsimp only
      rw [if_pos hdown, if_neg (by simpa using hnp)]
      rfl
    rw [hstep]
    apply containsNoteOn_of_mem (e := MidiEvent.mk true st.midiChannel
      ((12 * st.keyMappingOctave + o : Nat) : Int) st.velocity)
    · apply keyStateStep_events_mono
      exact List.mem_singleton.2 rfl
    · rfl
    · rfl

theorem keymap_offsets_unique_witness :
    countOffset (setKeyPressForNote baseState 3 7).keyBindings 7 = 1
    ∧ containsNoteOn
        (keyStateChanged (setKeyPressForNote baseState 3 7)
          (fun k => decide (k = 3))).2 ((12 * 5 + 7 : Nat) : Int) = true := by
  have h := keymap_offsets_unique baseState (by
    intro o
    show countOffset [] o ≤ 1
    simp [countOffset])
  exact ⟨h.2.1 3 7, h.2.2 3 7 (fun k => decide (k = 3)) (by decide) (by decide)⟩

/-- Claim C3: the key spans follow the fixed per-octave offset table: for
unit key width u a white note's span has width u and starts at an integer
multiple of u (7 per octave plus the table position), a black note's span
has width u times the black-note width ratio; and in the concrete scenario
(key width 20, range [60,72], default ratio 0.7) note 60 spans [0, 20) and
note 61 spans [11.6, 25.6), i.e. start 20 * (1 - 0.6 * 0.7) = 11.6 and width
14. -/
theorem keyPixelSpan_table (u r : ℚ) (n : Nat) (hn : n ≤ 127) :
    (isMidiNoteBlack n = true → spanWidth (getKeyPosition r n u) = r * u)
    ∧ (isMidiNoteBlack n = false →
        spanWidth (getKeyPosition r n u) = u
        ∧ ∃ k : Nat, (getKeyPosition r n u).start = (k : ℚ) * u)
    ∧ getKeyPos middleCOctaveState 60 = ⟨0, 20⟩
    ∧ getKeyPos middleCOctaveState 61 = ⟨58/5, 128/5⟩
    ∧ 58/5 = (20 : ℚ) * (1 - 6/10 * (7/10))
    ∧ 128/5 - 58/5 = (20 : ℚ) * (7/10) := by
  have hmod : n % 12 % 12 = n % 12 := by omega
  have hb_eq : isMidiNoteBlack (n % 12) = isMidiNoteBlack n := by
    unfold isMidiNoteBlack
    rw [hmod]
  refine ⟨?_, ?_, by decide, by decide, by norm_num, by norm_num⟩
  · intro hb
    unfold spanWidth getKeyPosition
    dsimp only
    rw [hb_eq, hb]
    simp only [if_true]
    ring
  · intro hwx
    constructor
    · unfold spanWidth getKeyPosition
      dsimp only
      rw [hb_eq, hwx]
      simp only [Bool.false_eq_true, if_false]
      ring
    · have h12 : n % 12 = 0 ∨ n % 12 = 2 ∨ n % 12 = 4 ∨ n % 12 = 5 ∨ n % 12 = 7
          ∨ n % 12 = 9 ∨ n % 12 = 11 := by
        have hlt : n % 12 < 12 := Nat.mod_lt _ (by norm_num)
        have hnb : ¬(n % 12 = 1 ∨ n % 12 = 3 ∨ n % 12 = 6 ∨ n % 12 = 8 ∨ n % 12 = 10) := by
          intro hc
          have hbt : isMidiNoteBlack n = true := by
            unfold isMidiNoteBlack
            rcases hc with h | h | h | h | h <;> rw [h] <;> decide
          rw [hbt] at hwx
          cases hwx
        omega
      have hstart : (getKeyPosition r n u).start
          = ((n / 12 : Nat) : ℚ) * 7 * u + notePos r (n % 12) * u := rfl
      rcases h12 with h | h | h | h | h | h | h
      · refine ⟨7 * (n / 12), ?_⟩
        rw [hstart, h]
        simp only [notePos]
        push_cast
        ring
      · refine ⟨7 * (n / 12) + 1, ?_⟩
        rw [hstart, h]
        simp only [notePos]
        push_cast
        ring
      · refine ⟨7 * (n / 12) + 2, ?_⟩
        rw [hstart, h]
        simp only [notePos]
        push_cast
        ring
      · refine ⟨7 * (n / 12) + 3, ?_⟩
        rw [hstart, h]
        simp only [notePos]
        push_cast
        ring
      · refine ⟨7 * (n / 12) + 4, ?_⟩
        rw [hstart, h]
        simp only [notePos]
        push_cast
        ring
      · refine ⟨7 * (n / 12) + 5, ?_⟩
        rw [hstart, h]
        simp only [notePos]
        push_cast
        ring
      · refine ⟨7 * (n / 12) + 6, ?_⟩
        rw [hstart, h]
        simp only [notePos]
        push_cast
        ring

theorem keyPixelSpan_table_witness :
    spanWidth (getKeyPosition (7/10) 61 20) = (7/10) * 20
    ∧ spanWidth (getKeyPosition (7/10) 60 20) = 20 :=
  ⟨(keyPixelSpan_table 20 (7/10) 61 (by norm_num)).1 (by decide),
   ((keyPixelSpan_table 20 (7/10) 60 (by norm_num)).2.1 (by decide)).1⟩

set_option maxRecDepth 10000 in
/-- Claim C1: with the default black-note ratios, the whole range [0,127]
visible from its start and a viewport wide enough for the full keyboard,
hit-testing the center of every note's pixel span (at the top edge, where
black keys are tested first) maps back to that note: the round trip of
`getKeyPos` through `remappedXYToNote` is the identity on [0,127]. -/
theorem pointToNote_keyCenter_roundTrip :
    ∀ n : Fin 128,
      (remappedXYToNote fullRangeState (spanCenter (getKeyPos fullRangeState n.val), 0)).1
        = (n.val : Int) := by
  decide

end MidiKeyboard
